import Mathlib

/-!
Verification development for the FinScraps repository.

The development shallowly embeds the business-day calendar (`src/utils.py`,
class `BRCal`) and the scrape orchestrator (`src/managers/Managers.py`,
class `AnbimaIRTSManager`) and proves properties of the embedded code.

Modelling conventions:
  - A calendar instant (`pandas.Timestamp`) is a pair of a calendar day and a
    time-of-day.  Days are integers counting from an epoch chosen so that
    day 0 is a Monday; hence `weekday d = d % 7` with Monday = 0 .. Sunday = 6
    exactly as Python `Timestamp.weekday()`.
  - The holiday set fetched at construction is a finite list of (normalized)
    days, immutable afterwards; all functions take it as a parameter.
  - `pd.date_range(start, end, freq=CustomBusinessDay(weekmask Mon-Fri,
    holidays))` enumerates exactly the business days in `[start, end]` in
    increasing order, and is empty when `start > end`.
  - `date - CustomBusinessDay()` (numpy `busday_offset(date, -1, roll
    forward)`) first rolls `date` forward to the first business day at or
    after it, then steps back to the last business day strictly before that.
  - Fallible operations return `Except String`, the error text naming the
    Python exception raised.
-/

/-- A `pandas.Timestamp`: a calendar day (days since a Monday epoch) together
with a time-of-day component (model units, 0 = midnight). -/
structure TS where
  day : Int
  tod : Nat
deriving DecidableEq, Repr

/-- `Timestamp.normalize()`: strip the time-of-day, keep the calendar day. -/
def TS.normalize (t : TS) : TS := ⟨t.day, 0⟩

/-- Strict comparison of instants, as `pandas` compares `Timestamp`s:
lexicographic on (day, time-of-day). -/
def tsLt (a b : TS) : Bool :=
  decide (a.day < b.day) || (decide (a.day = b.day) && decide (a.tod < b.tod))

/-- Core business-day predicate on normalized days: weekday Monday-Friday and
not a member of the holiday list.  This is the body of
`BRCal.is_business_day` after its input normalization. -/
def bizDay (hol : List Int) (d : Int) : Bool :=
  decide (d % 7 < 5) && !decide (d ∈ hol)

/-- `BRCal.is_business_day`: normalize the input to date-only, then test
weekday < 5 and non-membership in the holiday set. -/
def is_business_day (hol : List Int) (t : TS) : Bool :=
  bizDay hol (TS.normalize t).day

/-- Python `Timestamp.weekday()` of a timestamp (Monday = 0). -/
def weekday (t : TS) : Int := t.day % 7

/-- `BRCal.day_range`: `pd.date_range(start, end, freq=CustomBusinessDay)` on
the normalized endpoints, i.e. the increasing list of business days lying in
the inclusive span; empty when `start > end`.  Arguments are the normalized
days of the two endpoints (the source normalizes both inputs first). -/
def day_range (hol : List Int) (a b : Int) : List Int :=
  if b < a then []
  else ((List.range ((b - a).toNat + 1)).map (fun (i : Nat) => a + (i : Int))).filter
    (fun d => bizDay hol d)

/-- `BRCal.day_count` from the source.  Its body reads
`bdays = self.bday_range(start_date, end_date)`, but the class has no
attribute `bday_range` (the range method is named `day_range`), so every call
raises `AttributeError` before computing anything. -/
def day_count (_hol : List Int) (_s _e : TS) : Except String Int :=
  Except.error "AttributeError: BRCal object has no attribute bday_range"

/-- Modelled from the spec: the number of business-day steps strictly between
the endpoints, `len(day_range(start, end)) - 1` floored at 0, which is what
the docstring of `BRCal.day_count` documents it to return. -/
def day_count_intended (hol : List Int) (a b : Int) : Int :=
  max 0 (((day_range hol a b).length : Int) - 1)

/-- Largest element of a list of days, with a seed lower bound. -/
def listMax (l : List Int) (d : Int) : Int := l.foldr max d

/-- Smallest element of a list of days, with a seed upper bound. -/
def listMin (l : List Int) (d : Int) : Int := l.foldr min d

theorem le_listMax (l : List Int) (d : Int) : d ≤ listMax l d := by
  induction l with
  | nil => simp [listMax]
  | cons x xs ih =>
    simp only [listMax, List.foldr] at ih ⊢
    exact le_trans ih (le_max_right x _)

theorem mem_le_listMax (l : List Int) (d : Int) : ∀ x ∈ l, x ≤ listMax l d := by
  induction l with
  | nil => intro x hx; cases hx
  | cons y ys ih =>
    intro x hx
    rcases List.mem_cons.mp hx with h | h
    · subst h; exact le_max_left x (listMax ys d)
    · exact le_trans (ih x h) (le_max_right y (listMax ys d))

theorem listMin_le (l : List Int) (d : Int) : listMin l d ≤ d := by
  induction l with
  | nil => simp [listMin]
  | cons x xs ih =>
    simp only [listMin, List.foldr] at ih ⊢
    exact le_trans (min_le_right x _) ih

theorem listMin_le_mem (l : List Int) (d : Int) : ∀ x ∈ l, listMin l d ≤ x := by
  induction l with
  | nil => intro x hx; cases hx
  | cons y ys ih =>
    intro x hx
    rcases List.mem_cons.mp hx with h | h
    · subst h; exact min_le_left x (listMin ys d)
    · exact le_trans (min_le_right y (listMin ys d)) (ih x h)

theorem exists_bizDay_ge (hol : List Int) (d : Int) :
    ∃ n : Nat, bizDay hol (d + (n : Int)) = true := by
  set M := listMax hol d with hM
  have hdM : d ≤ M := le_listMax hol d
  have hx7 : (M + 7 - M % 7) % 7 = 0 := by omega
  have hxM : M < M + 7 - M % 7 := by omega
  refine ⟨(M + 7 - M % 7 - d).toNat, ?_⟩
  have hcast : d + (((M + 7 - M % 7 - d).toNat : Nat) : Int) = M + 7 - M % 7 := by
    omega
  rw [hcast]
  simp only [bizDay, Bool.and_eq_true, decide_eq_true_eq, Bool.not_eq_true',
    decide_eq_false_iff_not]
  refine ⟨by omega, ?_⟩
  intro hmem
  have := mem_le_listMax hol d _ hmem
  omega

theorem exists_bizDay_le (hol : List Int) (d : Int) :
    ∃ n : Nat, bizDay hol (d - 1 - (n : Int)) = true := by
  set m := listMin hol d with hm
  have hdm : m ≤ d := listMin_le hol d
  have hx7 : (m - m % 7 - 3) % 7 = 4 := by omega
  have hxm : m - m % 7 - 3 < m := by omega
  refine ⟨(d - 1 - (m - m % 7 - 3)).toNat, ?_⟩
  have hcast : d - 1 - (((d - 1 - (m - m % 7 - 3)).toNat : Nat) : Int)
      = m - m % 7 - 3 := by
    omega
  rw [hcast]
  simp only [bizDay, Bool.and_eq_true, decide_eq_true_eq, Bool.not_eq_true',
    decide_eq_false_iff_not]
  refine ⟨by omega, ?_⟩
  intro hmem
  have := listMin_le_mem hol d _ hmem
  omega

/-- The first business day at or after `d` (numpy roll forward). -/
def firstBdayGE (hol : List Int) (d : Int) : Int :=
  d + ((Nat.find (exists_bizDay_ge hol d) : Nat) : Int)

/-- The last business day strictly before `d` (one backward business-day
step from an on-offset day). -/
def lastBdayLT (hol : List Int) (d : Int) : Int :=
  d - 1 - ((Nat.find (exists_bizDay_le hol d) : Nat) : Int)

/-- `BRCal.previous_business_day`: normalize, then subtract one
`CustomBusinessDay`, i.e. `np.busday_offset(date, -1, roll forward)`: roll
the day forward onto the calendar, then step back one business day. -/
def previous_business_day (hol : List Int) (t : TS) : Int :=
  lastBdayLT hol (firstBdayGE hol (TS.normalize t).day)

theorem firstBdayGE_spec (hol : List Int) (d : Int) :
    bizDay hol (firstBdayGE hol d) = true :=
  Nat.find_spec (exists_bizDay_ge hol d)

theorem firstBdayGE_ge (hol : List Int) (d : Int) : d ≤ firstBdayGE hol d := by
  unfold firstBdayGE
  omega

theorem firstBdayGE_min (hol : List Int) (d e : Int) (h1 : d ≤ e)
    (h2 : e < firstBdayGE hol d) : bizDay hol e = false := by
  have hn : ((e - d).toNat : Int) = e - d := by omega
  have hlt : (e - d).toNat < Nat.find (exists_bizDay_ge hol d) := by
    unfold firstBdayGE at h2
    omega
  have := Nat.find_min (exists_bizDay_ge hol d) hlt
  have he : d + (((e - d).toNat : Nat) : Int) = e := by omega
  rw [he] at this
  exact eq_false_of_ne_true this

theorem lastBdayLT_spec (hol : List Int) (d : Int) :
    bizDay hol (lastBdayLT hol d) = true :=
  Nat.find_spec (exists_bizDay_le hol d)

theorem lastBdayLT_lt (hol : List Int) (d : Int) : lastBdayLT hol d < d := by
  unfold lastBdayLT
  omega

/-- C5: for every date and every holiday set, `previous_business_day` returns
a day strictly before the (normalized) input day, and that day is a business
day, whether or not the input day is itself a business day. -/
theorem previous_business_day_lt_bday (hol : List Int) (t : TS) :
    previous_business_day hol t < t.day ∧
      is_business_day hol ⟨previous_business_day hol t, 0⟩ = true := by
  have hbiz : bizDay hol (previous_business_day hol t) = true :=
    lastBdayLT_spec hol (firstBdayGE hol (TS.normalize t).day)
  have hday : (TS.normalize t).day = t.day := rfl
  constructor
  · by_contra hge
    push_neg at hge
    have hlt : previous_business_day hol t < firstBdayGE hol (TS.normalize t).day :=
      lastBdayLT_lt hol (firstBdayGE hol (TS.normalize t).day)
    have : bizDay hol (previous_business_day hol t) = false :=
      firstBdayGE_min hol (TS.normalize t).day _ (by rw [hday]; exact hge) hlt
    rw [this] at hbiz
    exact Bool.false_ne_true hbiz
  · simpa [is_business_day, TS.normalize] using hbiz

/-- C7: `is_business_day` returns true exactly when the weekday of the
normalized input is Monday through Friday and the normalized day is not a
member of the holiday set. -/
theorem is_business_day_iff (hol : List Int) (t : TS) :
    is_business_day hol t = true ↔
      (weekday (TS.normalize t) < 5 ∧ (TS.normalize t).day ∉ hol) := by
  simp [is_business_day, bizDay, weekday, TS.normalize]

/-- Closed-form instance of `is_business_day_iff` at a concrete input. -/
theorem is_business_day_iff_witness : is_business_day [] ⟨0, 37⟩ = true :=
  (is_business_day_iff [] ⟨0, 37⟩).mpr ⟨by decide, by decide⟩

/-- C6: `day_range` is empty when the endpoints are out of order, is strictly
increasing, and consists only of business days lying within the inclusive
span of the endpoints. -/
theorem day_range_props (hol : List Int) (a b : Int) :
    (b < a → day_range hol a b = []) ∧
      (day_range hol a b).Pairwise (· < ·) ∧
      (∀ x ∈ day_range hol a b, bizDay hol x = true ∧ a ≤ x ∧ x ≤ b) := by
  refine ⟨fun h => by simp [day_range, h], ?_, ?_⟩
  · unfold day_range
    by_cases h : b < a
    · simp [h]
    · simp only [if_neg h]
      apply List.Pairwise.filter
      refine List.Pairwise.map _ ?_ (List.pairwise_lt_range ((b - a).toNat + 1))
      intro i j hij
      omega
  · intro x hx
    unfold day_range at hx
    by_cases h : b < a
    · simp [h] at hx
    · simp only [if_neg h] at hx
      have hfil := List.of_mem_filter hx
      have hmem := List.mem_of_mem_filter hx
      rcases List.mem_map.mp hmem with ⟨i, hi, rfl⟩
      have hib := List.mem_range.mp hi
      refine ⟨hfil, by omega, by omega⟩

/-- Closed-form instance of `day_range_props` at concrete inputs: the range
is empty for out-of-order endpoints, and a member of a concrete range is a
business day within the span. -/
theorem day_range_props_witness :
    day_range [] 5 2 = [] ∧ (bizDay [] 0 = true ∧ (0 : Int) ≤ 0 ∧ (0 : Int) ≤ 3) :=
  ⟨(day_range_props [] 5 2).1 (by decide),
    (day_range_props [] 0 3).2.2 0 (by decide)⟩

/-- C2: every call of `day_count` raises `AttributeError` (the body invokes
the nonexistent attribute `bday_range`), so it never returns the value
`max 0 (len(day_range(a, b)) - 1)` its docstring and the spec describe. -/
theorem day_count_always_raises (hol : List Int) (s e : TS) :
    day_count hol s e =
        Except.error "AttributeError: BRCal object has no attribute bday_range" ∧
      ∀ n : Int, day_count hol s e ≠ Except.ok n := by
  exact ⟨rfl, fun n h => by simp [day_count] at h⟩

/-- A cell value of the persisted parameter table. -/
inductive Val where
  | ts (t : TS)
  | num (x : Int)
  | str (s : String)
  | null
deriving DecidableEq, Repr

/-- A `pandas.DataFrame`: column labels plus rows of cells, the cell of row
`r` for column `j` sitting at position `j` of `r`. -/
structure DataFrame where
  cols : List String
  rows : List (List Val)
deriving DecidableEq, Repr

/-- `DataFrame.empty`: true when either axis has length zero. -/
def dfEmpty (df : DataFrame) : Bool := df.rows.isEmpty || df.cols.isEmpty

/-- The values of the named column; missing cells read as NaN. -/
def colVals (df : DataFrame) (c : String) : List Val :=
  match df.cols.findIdx? (fun s => s == c) with
  | some i => df.rows.map (fun r => r.getD i Val.null)
  | none => []

/-- `pd.concat([a, b], ignore_index=True)`: the column labels are united in
order of first appearance and every row is re-aligned to them, cells of
absent columns filled with NaN. -/
def dfConcat (a b : DataFrame) : DataFrame :=
  let cols := a.cols ++ b.cols.filter (fun c => !(a.cols.contains c))
  let align := fun (src : List String) (r : List Val) =>
    cols.map (fun c =>
      match src.findIdx? (fun s => s == c) with
      | some i => r.getD i Val.null
      | none => Val.null)
  ⟨cols, a.rows.map (align a.cols) ++ b.rows.map (align b.cols)⟩

/-- Drop every row identical to an earlier row (rows in `seen` count as
already encountered). -/
def dropDupAux (seen : List (List Val)) : List (List Val) → List (List Val)
  | [] => []
  | r :: rs =>
    if r ∈ seen then dropDupAux seen rs else r :: dropDupAux (r :: seen) rs

/-- `DataFrame.drop_duplicates()`: keep the first occurrence of each fully
identical row. -/
def dropDuplicates (df : DataFrame) : DataFrame :=
  ⟨df.cols, dropDupAux [] df.rows⟩

/-- Sort key of a date cell: timestamps ascend by instant and NaN sorts
last, as `sort_values` with the default `na_position` does. -/
def dateKey : Val → Int × Int × Int
  | .ts t => (0, t.day, (t.tod : Int))
  | .null => (1, 0, 0)
  | .num x => (2, x, 0)
  | .str _ => (3, 0, 0)

/-- Lexicographic comparison of sort keys. -/
def keyLE (p q : Int × Int × Int) : Prop :=
  p.1 < q.1 ∨ (p.1 = q.1 ∧ (p.2.1 < q.2.1 ∨ (p.2.1 = q.2.1 ∧ p.2.2 ≤ q.2.2)))

instance (p q : Int × Int × Int) : Decidable (keyLE p q) := by
  unfold keyLE
  exact inferInstance

/-- Row comparison used by `sort_values("date")`: compare the date cells at
column position `i`. -/
def rowLE (i : Nat) (r s : List Val) : Prop :=
  keyLE (dateKey (r.getD i Val.null)) (dateKey (s.getD i Val.null))

instance (i : Nat) (r s : List Val) : Decidable (rowLE i r s) := by
  unfold rowLE
  exact inferInstance

theorem keyLE_total (p q : Int × Int × Int) : keyLE p q ∨ keyLE q p := by
  unfold keyLE
  omega

theorem keyLE_trans (p q r : Int × Int × Int) :
    keyLE p q → keyLE q r → keyLE p r := by
  unfold keyLE
  omega

instance (i : Nat) : IsTotal (List Val) (rowLE i) :=
  ⟨fun _ _ => keyLE_total _ _⟩

instance (i : Nat) : IsTrans (List Val) (rowLE i) :=
  ⟨fun _ _ _ => keyLE_trans _ _ _⟩

/-- Dtype guard of the model: a date cell is sortable when it is a
timestamp or NaN, the dtype this pipeline writes.  (A column of another
dtype either raises in pandas when mixed, or cannot occur in this dataset;
the model treats both as the raising case.) -/
def isTsOrNull : Val → Bool
  | .ts _ => true
  | .null => true
  | _ => false

/-- `combined_df.sort_values("date", ascending=True)` followed by
`reset_index(drop=True)`: raises `KeyError` when no `date` column exists,
otherwise reorders the rows ascending by date cell, NaN last. -/
def sortValues (df : DataFrame) : Except String DataFrame :=
  match df.cols.findIdx? (fun s => s == "date") with
  | none => Except.error "KeyError: date"
  | some i =>
    if df.rows.all (fun r => isTsOrNull (r.getD i Val.null)) then
      Except.ok ⟨df.cols, List.insertionSort (rowLE i) df.rows⟩
    else Except.error "TypeError: date column not sortable"

/-- The rows are sorted ascending by the `date` column, NaN last. -/
def sorted_by_date (df : DataFrame) : Prop :=
  ∃ i, df.cols.findIdx? (fun s => s == "date") = some i ∧
    df.rows.Pairwise (rowLE i)

/-- `AnbimaIRTSManager._validate_date`: reject a non-business day, a date
after midnight-today (the raw instant is compared), or a date for which
`len(day_range(date, today))` exceeds 5.  `todayD` is the day of
`BRCal.today`, which is already normalized. -/
def validate_date (hol : List Int) (todayD : Int) (date : TS) : Bool :=
  if !(is_business_day hol date) then false
  else if tsLt ⟨todayD, 0⟩ date then false
  else if 5 < (day_range hol date.day todayD).length then false
  else true

instance {e a : Type} [DecidableEq e] [DecidableEq a] : DecidableEq (Except e a) := fun x y => by
  cases x with
  | error u =>
    cases y with
    | error v =>
      exact decidable_of_iff (u = v) ⟨fun h => by rw [h], fun h => by cases h; rfl⟩
    | ok v => exact isFalse (fun h => Except.noConfusion h)
  | ok u =>
    cases y with
    | error v => exact isFalse (fun h => Except.noConfusion h)
    | ok v =>
      exact decidable_of_iff (u = v) ⟨fun h => by rw [h], fun h => by cases h; rfl⟩

/-- Outcome of one `scrape_and_update` invocation: the returned or raised
result, the store contents afterwards, and whether the fetch was invoked. -/
structure ScrapeOut where
  result : Except String Bool
  store : Option DataFrame
  fetched : Bool
deriving DecidableEq, Repr

/-- `AnbimaIRTSManager.scrape_and_update`.  `store` holds the Feather file
contents, `none` when the file does not exist; `fetch` is the outcome the
scraper would produce for `date` if invoked (an external HTTP collaborator).
Mirrors the source: validate; load (a missing file loads as the empty
`pd.DataFrame()`, written `store.getD` below where the source binds it to a
local variable); skip when the date already appears in the `date` column
of a non-empty store; fetch, errors propagating after being logged; then
concatenate, drop fully duplicate rows, sort by `date`, and persist. -/
def scrape_and_update (hol : List Int) (todayD : Int) (date : TS)
    (store : Option DataFrame) (fetch : Except String DataFrame) : ScrapeOut :=
  if !(validate_date hol todayD date) then ⟨Except.ok false, store, false⟩
  else if !(dfEmpty (store.getD ⟨[], []⟩)) &&
      decide ("date" ∈ (store.getD ⟨[], []⟩).cols) &&
      decide (Val.ts date ∈ colVals (store.getD ⟨[], []⟩) "date") then
    ⟨Except.ok false, store, false⟩
  else
    match fetch with
    | Except.error e => ⟨Except.error e, store, true⟩
    | Except.ok new_data =>
      match sortValues (dropDuplicates (dfConcat (store.getD ⟨[], []⟩) new_data)) with
      | Except.error e => ⟨Except.error e, store, true⟩
      | Except.ok sorted => ⟨Except.ok true, some sorted, true⟩

theorem dropDupAux_not_mem_seen (l : List (List Val)) :
    ∀ seen, ∀ x ∈ dropDupAux seen l, x ∉ seen := by
  induction l with
  | nil => intro seen x hx; simp [dropDupAux] at hx
  | cons r rs ih =>
    intro seen x hx
    by_cases hr : r ∈ seen
    · simp only [dropDupAux, if_pos hr] at hx
      exact ih seen x hx
    · simp only [dropDupAux, if_neg hr] at hx
      rcases List.mem_cons.mp hx with h | h
      · subst h; exact hr
      · intro hseen
        exact ih (r :: seen) x h (List.mem_cons_of_mem r hseen)

theorem dropDupAux_nodup (l : List (List Val)) :
    ∀ seen, (dropDupAux seen l).Nodup := by
  induction l with
  | nil => intro seen; simp [dropDupAux]
  | cons r rs ih =>
    intro seen
    by_cases hr : r ∈ seen
    · simp only [dropDupAux, if_pos hr]
      exact ih seen
    · simp only [dropDupAux, if_neg hr]
      refine List.nodup_cons.mpr ⟨?_, ih (r :: seen)⟩
      intro hmem
      exact dropDupAux_not_mem_seen rs (r :: seen) r hmem (List.mem_cons_self r seen)

theorem dropDuplicates_nodup (df : DataFrame) : (dropDuplicates df).rows.Nodup :=
  dropDupAux_nodup df.rows []

theorem sortValues_ok (df out : DataFrame)
    (h : sortValues df = Except.ok out) :
    out.rows.Perm df.rows ∧ sorted_by_date out := by
  unfold sortValues at h
  split at h
  · exact Except.noConfusion h
  next i hidx =>
    split at h
    next hall =>
      have hout : out = ⟨df.cols, List.insertionSort (rowLE i) df.rows⟩ :=
        (Except.ok.injEq _ _).mp h.symm
      subst hout
      refine ⟨List.perm_insertionSort (rowLE i) df.rows, ⟨i, hidx, ?_⟩⟩
      exact List.sorted_insertionSort (rowLE i) df.rows
    next => exact Except.noConfusion h

/-- C3: when the stored dataset is non-empty, has a `date` column, and
already contains a row whose date equals the requested date,
`scrape_and_update` returns false, does not invoke the fetch, and leaves
the store exactly as it was, so a second run for an already-present date
leaves the store identical to the first run's result. -/
theorem scrape_skips_present_date (hol : List Int) (todayD : Int) (date : TS)
    (df : DataFrame) (fetch : Except String DataFrame)
    (h1 : dfEmpty df = false) (h2 : "date" ∈ df.cols)
    (h3 : Val.ts date ∈ colVals df "date") :
    scrape_and_update hol todayD date (some df) fetch =
      ⟨Except.ok false, some df, false⟩ := by
  by_cases hv : validate_date hol todayD date = true
  · simp [scrape_and_update, hv, h1, h2, h3]
  · have hv' : validate_date hol todayD date = false := eq_false_of_ne_true hv
    simp [scrape_and_update, hv']

/-- Closed-form instance of `scrape_skips_present_date`: a store that
already holds the requested Monday is left untouched and nothing is
fetched. -/
theorem scrape_skips_present_date_witness :
    scrape_and_update [] 0 ⟨0, 0⟩ (some ⟨["date"], [[Val.ts ⟨0, 0⟩]]⟩)
        (Except.ok ⟨[], []⟩) =
      ⟨Except.ok false, some ⟨["date"], [[Val.ts ⟨0, 0⟩]]⟩, false⟩ :=
  scrape_skips_present_date [] 0 ⟨0, 0⟩ ⟨["date"], [[Val.ts ⟨0, 0⟩]]⟩
    (Except.ok ⟨[], []⟩) (by decide) (by decide) (by decide)

/-- C10: when the validated date's fetch yields zero records and no dataset
file exists, the merge step raises `KeyError` sorting the absent `date`
column of the empty combined frame; nothing is persisted and true is not
returned. -/
theorem scrape_empty_fetch_no_file_raises (hol : List Int) (todayD : Int)
    (date : TS) (h : validate_date hol todayD date = true) :
    scrape_and_update hol todayD date none (Except.ok ⟨[], []⟩) =
      ⟨Except.error "KeyError: date", none, true⟩ := by
  unfold scrape_and_update
  rw [h]
  rfl

/-- Closed-form instance of `scrape_empty_fetch_no_file_raises` at a
concrete business day. -/
theorem scrape_empty_fetch_no_file_raises_witness :
    scrape_and_update [] 0 ⟨0, 0⟩ none (Except.ok ⟨[], []⟩) =
      ⟨Except.error "KeyError: date", none, true⟩ :=
  scrape_empty_fetch_no_file_raises [] 0 ⟨0, 0⟩ (by decide)

/-- C4: whenever `scrape_and_update` returns true, the dataset it persisted
contains no two fully identical rows and its rows are sorted ascending by
the `date` column. -/
theorem scrape_success_nodup_sorted (hol : List Int) (todayD : Int) (date : TS)
    (store : Option DataFrame) (fetch : Except String DataFrame)
    (out : ScrapeOut)
    (heq : scrape_and_update hol todayD date store fetch = out)
    (h : out.result = Except.ok true) :
    ∃ df, out.store = some df ∧ df.rows.Nodup ∧ sorted_by_date df := by
  unfold scrape_and_update at heq
  split at heq
  · subst heq
    simp at h
  · split at heq
    · subst heq
      simp at h
    · split at heq
      · subst heq
        simp at h
      next new_data hf =>
        split at heq
        · subst heq
          simp at h
        next sorted hs =>
          subst heq
          obtain ⟨hperm, hsorted⟩ := sortValues_ok _ _ hs
          exact ⟨sorted, rfl, hperm.symm.nodup (dropDuplicates_nodup _), hsorted⟩

/-- Closed-form instance of `scrape_success_nodup_sorted`: a successful run
from an empty store with a one-row fetch yields a store that is duplicate
free and date sorted. -/
theorem scrape_success_nodup_sorted_witness :
    ∃ df, (⟨Except.ok true,
        some ⟨["date", "type"], [[Val.ts ⟨0, 0⟩, Val.str "pre"]]⟩, true⟩ :
          ScrapeOut).store = some df ∧
      df.rows.Nodup ∧ sorted_by_date df :=
  scrape_success_nodup_sorted [] 0 ⟨0, 0⟩ none
    (Except.ok ⟨["date", "type"], [[Val.ts ⟨0, 0⟩, Val.str "pre"]]⟩)
    ⟨Except.ok true, some ⟨["date", "type"], [[Val.ts ⟨0, 0⟩, Val.str "pre"]]⟩,
      true⟩ rfl rfl

/-- C8 counterexample: with a validated Monday, an absent store file and a
fetch that succeeds with zero records, `scrape_and_update` raises even
though the fetch did not, refuting the claimed raises-iff-fetch-raises
equivalence. -/
theorem scrape_raises_without_fetch_error :
    (scrape_and_update [] 0 ⟨0, 0⟩ none (Except.ok ⟨[], []⟩)).result =
        Except.error "KeyError: date" ∧
      ∀ e : String,
        (Except.ok (⟨[], []⟩ : DataFrame) : Except String DataFrame) ≠
          Except.error e :=
  ⟨rfl, fun _ h => Except.noConfusion h⟩

/-- C8 amended: a fetch error reaching the fetch step is re-raised
unchanged with the store untouched; conversely any raise of
`scrape_and_update` leaves the store untouched and stems either from the
fetch or from `sort_values` in the merge step. -/
theorem scrape_error_propagation (hol : List Int) (todayD : Int) (date : TS)
    (store : Option DataFrame) (fetch : Except String DataFrame)
    (out : ScrapeOut)
    (heq : scrape_and_update hol todayD date store fetch = out) :
    (∀ e, fetch = Except.error e → out.fetched = true →
      out = ⟨Except.error e, store, true⟩) ∧
    (∀ e, out.result = Except.error e →
      out.store = store ∧ out.fetched = true ∧
      (fetch = Except.error e ∨
        ∃ ndf, fetch = Except.ok ndf ∧
          sortValues (dropDuplicates (dfConcat (store.getD ⟨[], []⟩) ndf)) =
            Except.error e)) := by
  cases fetch with
  | error f =>
    simp only [scrape_and_update] at heq
    split at heq
    · subst heq
      exact ⟨fun e he hft => absurd hft (by simp), fun e hr => absurd hr (by simp)⟩
    · split at heq
      · subst heq
        exact ⟨fun e he hft => absurd hft (by simp), fun e hr => absurd hr (by simp)⟩
      · subst heq
        refine ⟨?_, ?_⟩
        · intro e he _
          injection he with h1
          subst h1
          rfl
        · intro e hr
          have hr2 : Except.error f = Except.error e := hr
          injection hr2 with h1
          subst h1
          exact ⟨rfl, rfl, Or.inl rfl⟩
  | ok new_data =>
    simp only [scrape_and_update] at heq
    split at heq
    · subst heq
      exact ⟨fun e he hft => absurd hft (by simp), fun e hr => absurd hr (by simp)⟩
    · split at heq
      · subst heq
        exact ⟨fun e he hft => absurd hft (by simp), fun e hr => absurd hr (by simp)⟩
      · split at heq
        next e2 hs =>
          subst heq
          refine ⟨?_, ?_⟩
          · intro e he _
            exact Except.noConfusion he
          · intro e hr
            have hr2 : Except.error e2 = Except.error e := hr
            injection hr2 with h1
            subst h1
            exact ⟨rfl, rfl, Or.inr ⟨new_data, rfl, hs⟩⟩
        next sorted hs =>
          subst heq
          refine ⟨?_, ?_⟩
          · intro e he _
            exact Except.noConfusion he
          · intro e hr
            simp at hr

/-- Closed-form instance of `scrape_error_propagation`: a failing fetch on
a validated date propagates its error and leaves the absent store absent. -/
theorem scrape_error_propagation_witness :
    scrape_and_update [] 0 ⟨0, 0⟩ none (Except.error "ConnectionError") =
      ⟨Except.error "ConnectionError", none, true⟩ :=
  (scrape_error_propagation [] 0 ⟨0, 0⟩ none (Except.error "ConnectionError")
    (scrape_and_update [] 0 ⟨0, 0⟩ none (Except.error "ConnectionError")) rfl).1
    "ConnectionError" rfl (by decide)

theorem tsLt_midnight (todayD d : Int) :
    tsLt ⟨todayD, 0⟩ ⟨d, 0⟩ = decide (todayD < d) := by
  simp [tsLt]

/-- C1 counterexample: with an empty holiday set, today = day 4 (a Friday)
and date = day -3 (the previous Friday, a business day exactly 5
business-day steps earlier, the inclusive range holding 6 business days),
validation rejects the date as too stale, where the claim says it accepts. -/
theorem validate_five_steps_rejected :
    is_business_day [] ⟨-3, 0⟩ = true ∧ bizDay [] 4 = true ∧
      (day_range [] (-3) 4).length - 1 = 5 ∧
      validate_date [] 4 ⟨-3, 0⟩ = false := by decide

/-- C1 amended: the validator computes `len(day_range(date, today))` with
no subtraction and rejects when it exceeds 5, so a business-day date
exactly 4 business-day steps before today (range length 5) is accepted
while a date 5 or more business-day steps before today (range length 6 or
more) is rejected as too stale. -/
theorem validate_staleness_boundary (hol : List Int) (todayD d : Int)
    (hbiz : is_business_day hol ⟨d, 0⟩ = true) :
    ((day_range hol d todayD).length = 5 →
      validate_date hol todayD ⟨d, 0⟩ = true) ∧
    (5 < (day_range hol d todayD).length →
      validate_date hol todayD ⟨d, 0⟩ = false) := by
  constructor
  · intro hlen
    have hne : ¬(todayD < d) := by
      intro hlt
      have hnil : day_range hol d todayD = [] := by simp [day_range, hlt]
      rw [hnil] at hlen
      simp at hlen
    unfold validate_date
    rw [hbiz, tsLt_midnight]
    simp [hne, hlen]
  · intro hlen
    unfold validate_date
    rw [hbiz, tsLt_midnight]
    by_cases hne : todayD < d
    · have hnil : day_range hol d todayD = [] := by simp [day_range, hne]
      rw [hnil] at hlen
      simp at hlen
    · simp [hne, hlen]

/-- Closed-form instance of `validate_staleness_boundary`: with today a
Friday, the Monday of the same week (4 steps back) is accepted and the
previous Friday (5 steps back) is rejected. -/
theorem validate_staleness_boundary_witness :
    validate_date [] 4 ⟨0, 0⟩ = true ∧ validate_date [] 4 ⟨-3, 0⟩ = false :=
  ⟨(validate_staleness_boundary [] 4 0 (by decide)).1 (by decide),
    (validate_staleness_boundary [] 4 (-3) (by decide)).2 (by decide)⟩

/-- C9 counterexample: on a Monday, the input carrying that same calendar
day with a nonzero time-of-day is rejected (as a future date), while the
same input normalized to midnight is accepted, so validation does not make
the same decision on an input and its normalization. -/
theorem validate_time_of_day_rejected :
    validate_date [] 0 ⟨0, 1⟩ = false ∧
      validate_date [] 0 (TS.normalize ⟨0, 1⟩) = true := by decide

/-- C9 amended: the business-day check and the staleness check normalize
their input, but the future-date check compares the raw instant against
midnight-today; hence the decision agrees with the normalized input
whenever the input's calendar day differs from today, while an input on
today's calendar day with a nonzero time-of-day is rejected as a future
date although its normalized form is accepted (today being a business
day). -/
theorem validate_normalization_behavior (hol : List Int) (todayD : Int)
    (t : TS) :
    (t.day ≠ todayD →
      validate_date hol todayD t = validate_date hol todayD (TS.normalize t)) ∧
    (t.day = todayD → 0 < t.tod → bizDay hol todayD = true →
      validate_date hol todayD t = false ∧
      validate_date hol todayD (TS.normalize t) = true) := by
  constructor
  · intro hne
    unfold validate_date
    have h1 : is_business_day hol t = is_business_day hol (TS.normalize t) :=
      rfl
    have h2 : tsLt ⟨todayD, 0⟩ t = tsLt ⟨todayD, 0⟩ (TS.normalize t) := by
      simp [tsLt, TS.normalize, Ne.symm hne]
    have h3 : (TS.normalize t).day = t.day := rfl
    rw [h1, h2, h3]
  · intro hde htod hb
    have hbt : is_business_day hol t = true := by
      have h : is_business_day hol t = bizDay hol t.day := rfl
      rw [h, hde, hb]
    constructor
    · unfold validate_date
      have h2 : tsLt ⟨todayD, 0⟩ t = true := by
        simp [tsLt, hde]
        omega
      rw [hbt, h2]
      rfl
    · unfold validate_date
      have h1 : is_business_day hol (TS.normalize t) = true := hbt
      have h2 : tsLt ⟨todayD, 0⟩ (TS.normalize t) = false := by
        simp [tsLt, TS.normalize, hde]
      have h4 : day_range hol (TS.normalize t).day todayD = [todayD] := by
        have hd : (TS.normalize t).day = t.day := rfl
        rw [hd, hde]
        unfold day_range
        rw [if_neg (lt_irrefl todayD)]
        rw [show (todayD - todayD).toNat + 1 = 1 by omega]
        rw [show List.range 1 = [0] from rfl]
        simp [List.filter, hb]
      rw [h1, h2, h4]
      rfl

/-- Closed-form instance of `validate_normalization_behavior`: a past day
with a time-of-day decides like its normalization, and today-with-time is
rejected while normalized today is accepted. -/
theorem validate_normalization_behavior_witness :
    validate_date [] 7 ⟨3, 5⟩ = validate_date [] 7 (TS.normalize ⟨3, 5⟩) ∧
      (validate_date [] 7 ⟨7, 2⟩ = false ∧
        validate_date [] 7 (TS.normalize ⟨7, 2⟩) = true) :=
  ⟨(validate_normalization_behavior [] 7 ⟨3, 5⟩).1 (by decide),
    (validate_normalization_behavior [] 7 ⟨7, 2⟩).2 rfl (by decide) (by decide)⟩
